import Mathlib

/-!
# nirops agent (`src/nirops.go`): a shallow embedding and its properties

The agent polls a control server (`startHeartbeat`), opens a websocket session
when told to (`startWsClient`), runs the shell commands it receives
(`handleMessge`) and posts their output (`sendOutputToCloud`).

Modelling conventions

* A Go `string` / `[]byte` is a `List Char` (`Str`).  Every string operation
  the program applies (`TrimSuffix "\n"`, `ReplaceAll` of `"\n"` and `"\""`,
  `Split ":"`, `TrimSpace`, `Sprintf "%s"`) searches for ASCII characters
  only, so on UTF-8 text the byte-level and the character-level readings
  coincide.
* Library and operating-system calls (`json.Unmarshal`, `exec.Command`,
  `http.NewRequest`, `http.DefaultClient.Do`, `ReadMessage`, `WriteMessage`,
  the tickers, the interrupt signal) are inputs of the model: their results
  are parameters or events.
* A `log.Fatalf` inside `sendOutputToCloud` is the effect `fatal`: the
  process exits there and nothing of the program happens afterwards.  A
  failed heartbeat request or dial ends the process between two events, so a
  run is followed up to such an exit.
-/

set_option linter.dupNamespace false

namespace Nirops

/-! ## Strings -/

/-- A Go string, as its sequence of characters. -/
abbrev Str := List Char

/-- Go `strings.TrimSuffix(s, suffix)`: `s` without the trailing `suffix`,
or `s` itself when it does not end with `suffix`. -/
def trimSuffix (s suffix : Str) : Str :=
  if suffix.isSuffixOf s then s.take (s.length - suffix.length) else s

/-- Go `strings.ReplaceAll(s, old, new)` for a one-character `old`, which is
how the program calls it (`"\n"` and `"\""`). -/
def replaceAll : Str → Char → Str → Str
  | [], _, _ => []
  | c :: cs, old, new => (if c = old then new else [c]) ++ replaceAll cs old new

/-- Go `strings.Split(s, sep)` for a one-character `sep` (the program splits
on `":"`).  The result is never empty: a string without `sep` yields `[s]`. -/
def split : Str → Char → List Str
  | [], _ => [[]]
  | c :: cs, sep =>
    if c = sep then [] :: split cs sep
    else
      match split cs sep with
      | [] => [[c]]
      | p :: ps => (c :: p) :: ps

/-- Go `unicode.IsSpace`: the Latin-1 spaces `\t \n \v \f \r`, space, U+0085,
U+00A0, and beyond Latin-1 the code points with the Unicode White_Space
property (U+1680, U+2000 to U+200A, U+2028, U+2029, U+202F, U+205F, U+3000). -/
def isSpace (c : Char) : Bool :=
  let n := c.toNat
  (0x09 ≤ n && n ≤ 0x0D) || n == 0x20 || n == 0x85 || n == 0xA0 || n == 0x1680 ||
  (0x2000 ≤ n && n ≤ 0x200A) || n == 0x2028 || n == 0x2029 || n == 0x202F ||
  n == 0x205F || n == 0x3000

/-- Go `strings.TrimSpace(s)`: `s` without its leading and trailing white
space. -/
def trimSpace (s : Str) : Str :=
  ((s.dropWhile isSpace).reverse.dropWhile isSpace).reverse

/-! ## Command dispatch: `handleMessge` and `sendOutputToCloud` -/

/-- The `Command` struct: the decoded command envelope. -/
structure Command where
  Id : Str
  Command : Str
  ChannelId : Str
deriving DecidableEq

/-- What `exec.Command("bash", "-c", cmd).Output()` returned: the captured
standard output and the error (`none` is `nil`).  A non-zero exit or a launch
failure gives `some` error text, possibly with partial output. -/
structure ExecResult where
  out : Str
  err : Option Str
deriving DecidableEq

/-- One request issued by `sendOutputToCloud`: a POST of `body` to `url`, the
URL the request built by `http.NewRequest` is addressed to. -/
structure Post where
  url : Str
  body : Str
deriving DecidableEq

/-- The observable steps of the read loop and of `handleMessge`, in program
order: a `ReadMessage` call is issued, it returns (`none` is an error), a
command line has been run to completion by `exec.Command(...).Output()`, a
request has been passed to `http.DefaultClient.Do` by `sendOutputToCloud`,
the process has exited in `log.Fatalf`. -/
inductive Effect
  | readCall
  | readReturn (r : Option Str)
  | ran (commandLine : Str)
  | posted (p : Post)
  | fatal
deriving DecidableEq

/-- The collaborators of `handleMessge` and `sendOutputToCloud`.
* `decode` is `json.Unmarshal` into a `Command` (`none` when it reports an
  error).
* `exec` runs a command line.
* `cloudOutputUrl` is the global of that name, set once by `initUrls`.
* `newRequest url` is `http.NewRequest("POST", url, body)`: `none` when it
  returns an error (the URL does not parse), otherwise the URL the request is
  addressed to, which need not be `url` itself (a fragment is not sent, a
  path is percent-encoded).
* `clientDo url body` is whether `http.DefaultClient.Do` returns without
  error for the request. -/
structure Env where
  decode : Str → Option Command
  exec : Str → ExecResult
  cloudOutputUrl : Str
  newRequest : Str → Option Str
  clientDo : Str → Str → Bool

/-- The sentinel that replaces the output of a failed command. -/
def badCommand : Str := "Bad Command".toList

/-- The `fmt.Sprintf` call of `handleMessge`, with format
`{"id": "%s","output": "%s"}`. -/
def respJson (id resp : Str) : Str :=
  "\x7b\"id\": \"".toList ++ id ++ "\",\"output\": \"".toList ++ resp ++ "\"\x7d".toList

/-- The URL `fmt.Sprintf(cloudOutputUrl+"/%s/channel/%s", id, cid)` of
`sendOutputToCloud`.  The global `cloudOutputUrl` is part of the format
string; this is the text `Sprintf` gives when `cloudOutputUrl` has no `%`
(the arguments `id` and `cid` are copied as they are). -/
def requestUrl (cloudOutputUrl id cid : Str) : Str :=
  cloudOutputUrl ++ "/".toList ++ id ++ "/channel/".toList ++ cid

/-- Function `sendOutputToCloud(id, cid, postBody)`, as its effects.  Every
newline of the body is replaced by the two characters backslash, `n`; the
request is built for the URL made from `id` and `cid`, and when
`http.NewRequest` returns an error the process exits in `log.Fatalf` before
any request is made; otherwise the request is passed to
`http.DefaultClient.Do`, and when that returns an error the process exits in
`log.Fatalf`. -/
def sendOutputToCloud (env : Env) (id cid postBody : Str) : List Effect :=
  let postBody := replaceAll postBody '\n' "\\n".toList
  match env.newRequest (requestUrl env.cloudOutputUrl id cid) with
  | none => [.fatal]
  | some url =>
    if env.clientDo url postBody then [.posted { url := url, body := postBody }]
    else [.posted { url := url, body := postBody }, .fatal]

/-- Function `handleMessge(message)`, as the effects it performs in order.  A
message that does not decode is dropped.  Otherwise the command runs, a
failure replaces the output by the sentinel, one trailing newline is trimmed,
quotes are escaped and the formatted result is handed to
`sendOutputToCloud`. -/
def handleMessge (env : Env) (message : Str) : List Effect :=
  match env.decode message with
  | none => []
  | some cmd =>
    let r := env.exec cmd.Command
    let out := if r.err.isSome then badCommand else r.out
    let resp := trimSuffix out "\n".toList
    let resp := replaceAll resp '"' "\\\"".toList
    .ran cmd.Command :: sendOutputToCloud env cmd.Id cmd.ChannelId (respJson cmd.Id resp)

/-- Whether a sequence of effects ends the process (it has a `log.Fatalf`). -/
def exits (t : List Effect) : Bool :=
  t.contains .fatal

/-- The goroutine of `startWsClient` that reads the connection, run against a
script of `ReadMessage` results.  Each round issues `ReadMessage`; an error
ends the loop (and closes `done`), a message is passed to `handleMessge` by a
plain call, and only then does the next round start, unless `handleMessge`
ended the process.  When the script is used up the loop is left blocked in
its `ReadMessage` call. -/
def readLoop (env : Env) : List (Option Str) → List Effect
  | [] => [.readCall]
  | none :: _ => [.readCall, .readReturn none]
  | some message :: rest =>
    .readCall :: .readReturn (some message) ::
      (if exits (handleMessge env message) then handleMessge env message
       else handleMessge env message ++ readLoop env rest)

/-! ## The credential file: `saveTokenToFile` and `initToken` -/

/-- How a call ends: with a value, in `log.Fatal`, or in a run-time panic. -/
inductive Outcome (α : Type)
  | ok (a : α)
  | fatal
  | panic
deriving DecidableEq

/-- Function `saveTokenToFile(token, file)`, as the content of `file`
afterwards.  The file is opened with `O_RDWR|O_CREATE` and without
truncation, so the line `authtoken: <token>` is written at offset 0 over what
was there; `none` is a file that did not exist.  For an existing file the
offset is counted in characters, which is the number of bytes the code
overwrites when the token is ASCII. -/
def saveTokenToFile (token : Str) (file : Option Str) : Str :=
  let line := "authtoken: ".toList ++ token ++ "\n".toList
  match file with
  | none => line
  | some old => line ++ old.drop line.length

/-- Function `initToken()` on the content of `~/.nirops/nirops.yml` (`none`
when it cannot be read): the second piece of the split on `":"`, trimmed.
Indexing a split that has one piece panics. -/
def initToken (file : Option Str) : Outcome Str :=
  match file with
  | none => .fatal
  | some body =>
    match (split body ':')[1]? with
    | none => .panic
    | some content => .ok (trimSpace content)

/-! ## The stream session (`startWsClient`) and the supervisor (`startHeartbeat`) -/

/-- The two kinds of frame the program passes to `WriteMessage`. -/
inductive Frame
  | keepalive
  | close
deriving DecidableEq

/-- What happened on one connection, in order: `ReadMessage` returned
(`ok = false` is an error), `WriteMessage` was called with a frame and
returned (`ok = false` is an error), `Close` was called. -/
inductive ConnEv
  | read (ok : Bool)
  | wrote (f : Frame) (ok : Bool)
  | closed
deriving DecidableEq

/-- The frame of a running `startWsClient` call: its connection `c` (an index
into the list of all connections dialed), whether a signal waits in its
`interrupt` channel, whether its read goroutine is still looping, and whether
`done` has been closed. -/
structure Session where
  conn : Nat
  interrupt : Bool
  reading : Bool
  done : Bool
deriving DecidableEq

/-- The state of `startHeartbeat`: the log of every connection dialed so far,
the variable `c` (`none` is `nil`), whether a signal waits in its `interrupt`
channel, the `startWsClient` call it is blocked in (if any), whether it is
over (it has returned, or the process has exited in `log.Fatalf` inside a
`handleMessge` call), and the effects of all `handleMessge` calls so far. -/
structure State where
  conns : List (List ConnEv)
  c : Option Nat
  interrupt : Bool
  session : Option Session
  returned : Bool
  effects : List Effect
deriving DecidableEq

/-- What the environment lets happen next.
* `signal`: the operating system delivers an interrupt; `signal.Notify` puts
  it in the (one-slot) channel of `startHeartbeat` and of the running
  `startWsClient`.
* `heartbeat code resp`: the `select` of `startHeartbeat` takes the ticker
  case and `sendHeartbeatToCloud` returns `(code, resp)`.
* `supInterrupt ok`: the `select` of `startHeartbeat` takes `<-interrupt`;
  `ok` is whether the `WriteMessage` of a close frame, if `stopWsClient`
  issues one, succeeds.
* `wsRead r`: `ReadMessage` returns in the read goroutine (`none`: error).
* `wsDone`: the `select` of `startWsClient` takes `<-done`.
* `wsTick ok`: that `select` takes the ticker case; `ok` is whether the
  keepalive `WriteMessage` succeeds.
* `wsInterrupt ok`: that `select` takes `<-interrupt`; `ok` is whether the
  `WriteMessage` of the close frame succeeds. -/
inductive Event
  | signal
  | heartbeat (code : Int) (resp : Str)
  | supInterrupt (ok : Bool)
  | wsRead (r : Option Str)
  | wsDone
  | wsTick (ok : Bool)
  | wsInterrupt (ok : Bool)
deriving DecidableEq

/-- Append an entry to the log of connection `k`. -/
def logAt : List (List ConnEv) → Nat → ConnEv → List (List ConnEv)
  | [], _, _ => []
  | l :: ls, 0, e => (l ++ [e]) :: ls
  | l :: ls, k + 1, e => l :: logAt ls k e

/-- Function `stopWsClient(c)`: nothing for a nil `c`, otherwise one
`WriteMessage` of a close frame, whose error is only logged. -/
def stopWsClient (conns : List (List ConnEv)) (c : Option Nat) (ok : Bool) :
    List (List ConnEv) :=
  match c with
  | none => conns
  | some k => logAt conns k (.wrote .close ok)

/-- What one round of a `for { select { ... } }` loop does next: go round
again, or return a connection pointer from the function. -/
inductive Ctl
  | again
  | ret (c : Option Nat)
deriving DecidableEq

/-- Entry of `startWsClient` up to its `for` loop: the interrupt channel is
registered, a new connection is dialed, its `Close` is deferred, the read
goroutine and the ticker are started. -/
def startWsClient (s : State) : State :=
  { s with
    conns := s.conns ++ [[]]
    session := some { conn := s.conns.length, interrupt := false, reading := true, done := false } }

/-- One round of the `for { select }` loop of `startWsClient` for the case the
event selects.  `case <-done: break` leaves only the `select`, so the loop
goes round again; the ticker case writes a keepalive and returns nil when the
write fails (`c` is not nil after a successful dial); the interrupt case calls
`stopWsClient(c)`, waits for `done` or one second, and returns nil.  No case
leaves the `for`, so the `return c` after it is never reached.  An event whose
case is not ready leaves everything as it is. -/
def wsSelect (conns : List (List ConnEv)) (ss : Session) :
    Event → List (List ConnEv) × Session × Ctl
  | .wsDone => (conns, ss, .again)
  | .wsTick ok =>
    (logAt conns ss.conn (.wrote .keepalive ok), ss, if ok then .again else .ret none)
  | .wsInterrupt ok =>
    if ss.interrupt then
      (stopWsClient conns (some ss.conn) ok, { ss with interrupt := false }, .ret none)
    else (conns, ss, .again)
  | _ => (conns, ss, .again)

/-- The read goroutine of `startWsClient` for one `ReadMessage` result: an
error ends the goroutine and closes `done`; a message is handled by
`handleMessge`, and when that exits in `log.Fatalf` the program is over (no
deferred `Close` runs). -/
def wsReader (env : Env) (s : State) (ss : Session) (r : Option Str) : State :=
  if ss.reading then
    match r with
    | none =>
      { s with
        conns := logAt s.conns ss.conn (.read false)
        session := some { ss with reading := false, done := true } }
    | some message =>
      { s with
        conns := logAt s.conns ss.conn (.read true)
        effects := s.effects ++ handleMessge env message
        returned := exits (handleMessge env message) }
  else s

/-- A round of the session loop inside the supervisor state: when the round
returns, the deferred `c.Close()` runs and `startHeartbeat` stores the
returned pointer in `c`. -/
def wsRound (s : State) (ss : Session) (e : Event) : State :=
  match wsSelect s.conns ss e with
  | (conns, ss1, .again) => { s with conns := conns, session := some ss1 }
  | (conns, _, .ret v) => { s with conns := logAt conns ss.conn .closed, session := none, c := v }

/-- The ticker case of `startHeartbeat` once `sendHeartbeatToCloud` has
returned `(code, resp)`: `if code == 200 { c = startWsClient() }` and
`if code == 201 { handleMessge([]byte(resp)) }`.  The call of `startWsClient`
is entered here; its rounds and its return are later events.  When
`handleMessge` exits in `log.Fatalf` the program is over. -/
def onHeartbeat (env : Env) (s : State) (code : Int) (resp : Str) : State :=
  let s1 := if code = 200 then startWsClient s else s
  if code = 201 then
    { s1 with
      effects := s1.effects ++ handleMessge env resp
      returned := exits (handleMessge env resp) }
  else s1

/-- The interrupt case of `startHeartbeat`: `stopWsClient(c)`, a one-second
wait, `return`. -/
def onSupInterrupt (s : State) (ok : Bool) : State :=
  { s with
    interrupt := false
    conns := stopWsClient s.conns s.c ok
    returned := true }

/-- One step of the program.  While `startHeartbeat` is inside
`startWsClient` only the session and its read goroutine move; otherwise the
`select` of `startHeartbeat` takes a ready case.  An event that cannot happen
in the state leaves it unchanged, and nothing happens once the program is
over.  The read goroutine of a session that has ended is not followed: it
cannot dial, close or assign `c`. -/
def step (env : Env) (s : State) (e : Event) : State :=
  if s.returned then s
  else
    match e with
    | .signal =>
      { s with
        interrupt := true
        session := s.session.map fun ss => { ss with interrupt := true } }
    | .heartbeat code resp =>
      match s.session with
      | none => onHeartbeat env s code resp
      | some _ => s
    | .supInterrupt ok =>
      match s.session with
      | none => if s.interrupt then onSupInterrupt s ok else s
      | some _ => s
    | .wsRead r =>
      match s.session with
      | none => s
      | some ss => wsReader env s ss r
    | .wsDone =>
      match s.session with
      | none => s
      | some ss => if ss.done then wsRound s ss .wsDone else s
    | .wsTick ok =>
      match s.session with
      | none => s
      | some ss => wsRound s ss (.wsTick ok)
    | .wsInterrupt ok =>
      match s.session with
      | none => s
      | some ss => wsRound s ss (.wsInterrupt ok)

/-- The state in which `startHeartbeat` enters its loop: no connection, `c`
nil, no pending signal. -/
def init : State :=
  { conns := [], c := none, interrupt := false, session := none, returned := false, effects := [] }

/-- The state after a sequence of events. -/
def run (env : Env) (s : State) (evs : List Event) : State :=
  evs.foldl (step env) s

/-- A connection is open from its dial until `Close` is called on it. -/
def isOpen (log : List ConnEv) : Bool :=
  !log.contains .closed

/-- The connections of a state that are open. -/
def openConns (s : State) : List (List ConnEv) :=
  s.conns.filter isOpen

/-- The number of `Close` calls made on a connection. -/
def closeCalls (log : List ConnEv) : Nat :=
  log.count .closed

/-- The invariant of the supervisor loop: `c` is nil; with no session running
every connection dialed has been closed exactly once; with a session running
its connection is the last one dialed and is open, and every earlier
connection has been closed exactly once. -/
def Inv (s : State) : Prop :=
  s.c = none ∧
  match s.session with
  | none => ∀ l ∈ s.conns, closeCalls l = 1
  | some ss =>
    ∃ pre l, s.conns = pre ++ [l] ∧ ss.conn = pre.length ∧
      (∀ x ∈ pre, closeCalls x = 1) ∧ closeCalls l = 0

/-- A character of a plain URL: a letter, a digit, or one of `: / . - _ ~`. -/
def isPlainUrlChar (c : Char) : Bool :=
  c.isAlphanum || c == ':' || c == '/' || c == '.' || c == '-' || c == '_' || c == '~'

/-- Go's `http.NewRequest` on the URLs the concrete runs build.  A URL of
plain characters parses, and the request is addressed to it as it stands.
The URL `.../wsapi/command/50%/channel/c1` does not parse (`%/c` is not a
percent escape), so `http.NewRequest` returns an error.  No other URL occurs
in the concrete runs that use this function; such a URL is rejected here. -/
def plainNewRequest (url : Str) : Option Str :=
  if url.all isPlainUrlChar then some url else none

/-- An environment for concrete runs: the server is the default
`https://api.nirops.com`, every message decodes to the envelope
`{id: "42", command: "echo hi", channel_id: "c1"}`, every command prints `hi`
and a newline, and requests go through. -/
def exampleEnv : Env :=
  { decode := fun _ => some { Id := "42".toList, Command := "echo hi".toList, ChannelId := "c1".toList }
    exec := fun _ => { out := "hi\n".toList, err := none }
    cloudOutputUrl := "https://api.nirops.com/wsapi/command".toList
    newRequest := plainNewRequest
    clientDo := fun _ _ => true }

/-- The number of results posted in a trace. -/
def delivered : List Effect → Nat
  | [] => 0
  | .posted _ :: t => delivered t + 1
  | _ :: t => delivered t

/-- The number of received messages in a trace that decode to a command, that
is, the number of commands handed to the dispatcher. -/
def dispatched (env : Env) : List Effect → Nat
  | [] => 0
  | .readReturn (some message) :: t =>
    (if (env.decode message).isSome then 1 else 0) + dispatched env t
  | _ :: t => dispatched env t

/-- An environment whose command prints a backslash followed by a double
quote: the envelope is `{id: "42", command: "printf %s '\"'", channel_id: "c1"}`. -/
def backslashQuoteEnv : Env :=
  { exampleEnv with
    decode := fun _ =>
      some { Id := "42".toList, Command := "printf %s '\\\"'".toList, ChannelId := "c1".toList }
    exec := fun _ => { out := "\\\"".toList, err := none } }

/-- An environment whose command prints a double quote followed by a tab. -/
def quoteTabEnv : Env :=
  { exampleEnv with
    decode := fun _ =>
      some { Id := "42".toList, Command := "printf '\"\\t'".toList, ChannelId := "c1".toList }
    exec := fun _ => { out := "\"\t".toList, err := none } }

/-- An environment whose envelope has the id `50%`: the envelope is
`{id: "50%", command: "echo hi", channel_id: "c1"}` and the command prints
`hi` and a newline. -/
def percentIdEnv : Env :=
  { exampleEnv with
    decode := fun _ =>
      some { Id := "50%".toList, Command := "echo hi".toList, ChannelId := "c1".toList } }

/-- An environment whose envelope has the id `50%` and whose command fails:
the envelope is `{id: "50%", command: "false", channel_id: "c1"}`. -/
def percentIdFailEnv : Env :=
  { exampleEnv with
    decode := fun _ =>
      some { Id := "50%".toList, Command := "false".toList, ChannelId := "c1".toList }
    exec := fun _ => { out := [], err := some "exit status 1".toList } }

/-- An environment whose envelope has the id `a"b` and whose command fails:
the envelope is `{id: "a\"b", command: "false", channel_id: "c1"}`.  Go's URL
parser accepts the double quote in the path and addresses the request to the
percent-encoded path. -/
def quoteIdFailEnv : Env :=
  { exampleEnv with
    decode := fun _ =>
      some { Id := "a\"b".toList, Command := "false".toList, ChannelId := "c1".toList }
    exec := fun _ => { out := [], err := some "exit status 1".toList }
    newRequest := fun _ => some "https://api.nirops.com/wsapi/command/a%22b/channel/c1".toList }

/-- An environment whose envelope has the id `7` and whose command fails with
error text `exit status 1` after printing `oops`. -/
def failEnv : Env :=
  { exampleEnv with
    decode := fun _ =>
      some { Id := "7".toList, Command := "false".toList, ChannelId := "c1".toList }
    exec := fun _ => { out := "oops".toList, err := some "exit status 1".toList } }

/-- An environment whose envelope has the id `a#b` and whose command fails:
the envelope is `{id: "a#b", command: "false", channel_id: "c1"}`.  Go's URL
parser takes what follows the `#` as a fragment, which is not sent: the
request is addressed to `.../wsapi/command/a`. -/
def hashIdFailEnv : Env :=
  { exampleEnv with
    decode := fun _ =>
      some { Id := "a#b".toList, Command := "false".toList, ChannelId := "c1".toList }
    exec := fun _ => { out := [], err := some "exit status 1".toList }
    newRequest := fun _ => some "https://api.nirops.com/wsapi/command/a".toList }

/-! ## JSON texts

What a standard decoder accepts: the grammar of RFC 8259.  The program builds
its result bodies by hand, so whether a body is a JSON text is checked against
this reader. -/

/-- A JSON value.  A number keeps its literal text. -/
inductive Json
  | null
  | bool (b : Bool)
  | number (literal : Str)
  | string (s : Str)
  | array (items : List Json)
  | object (members : List (Str × Json))

/-- JSON white space: space, tab, line feed, carriage return. -/
def isJsonSpace (c : Char) : Bool :=
  c == ' ' || c == '\t' || c == '\n' || c == '\r'

/-- The input without its leading white space. -/
def skipWs (s : Str) : Str :=
  s.dropWhile isJsonSpace

/-- The value of a hexadecimal digit. -/
def hexDigit (c : Char) : Option Nat :=
  let n := c.toNat
  if 48 ≤ n ∧ n ≤ 57 then some (n - 48)
  else if 97 ≤ n ∧ n ≤ 102 then some (n - 87)
  else if 65 ≤ n ∧ n ≤ 70 then some (n - 55)
  else none

/-- The character a one-letter escape stands for (`none`: no such escape). -/
def unescape (e : Char) : Option Char :=
  if e = '"' then some '"'
  else if e = '\\' then some '\\'
  else if e = '/' then some '/'
  else if e = 'b' then some (Char.ofNat 8)
  else if e = 'f' then some (Char.ofNat 12)
  else if e = 'n' then some '\n'
  else if e = 'r' then some '\r'
  else if e = 't' then some '\t'
  else none

/-- The code point of a `\uXXXX` escape; a surrogate half reads as U+FFFD
(halves are not paired). -/
def unicodeEscape (a b c d : Char) : Option Char :=
  match hexDigit a, hexDigit b, hexDigit c, hexDigit d with
  | some x, some y, some z, some w =>
    let n := ((x * 16 + y) * 16 + z) * 16 + w
    some (if 0xD800 ≤ n ∧ n ≤ 0xDFFF then Char.ofNat 0xFFFD else Char.ofNat n)
  | _, _, _, _ => none

/-- Read a string after its opening quote: the decoded characters up to the
closing quote, and the input after it.  A backslash must start an escape, and
a control character (below U+0020) may not appear unescaped. -/
def jsonString : Str → Option (Str × Str)
  | [] => none
  | c :: rest =>
    if c = '"' then some ([], rest)
    else if c = '\\' then
      match rest with
      | [] => none
      | e :: rest1 =>
        if e = 'u' then
          match rest1 with
          | h1 :: h2 :: h3 :: h4 :: rest2 =>
            match unicodeEscape h1 h2 h3 h4, jsonString rest2 with
            | some x, some (s, r) => some (x :: s, r)
            | _, _ => none
          | _ => none
        else
          match unescape e, jsonString rest1 with
          | some x, some (s, r) => some (x :: s, r)
          | _, _ => none
    else if c.toNat < 0x20 then none
    else
      match jsonString rest with
      | some (s, r) => some (c :: s, r)
      | none => none

/-- A decimal digit. -/
def isDigit (c : Char) : Bool :=
  48 ≤ c.toNat && c.toNat ≤ 57

/-- One or more digits: the input after them. -/
def digits1 (s : Str) : Option Str :=
  match s with
  | c :: _ => if isDigit c then some (s.dropWhile isDigit) else none
  | [] => none

/-- The optional fraction and exponent of a number: the input after them. -/
def fracExp (s : Str) : Option Str :=
  let afterFrac : Option Str :=
    match s with
    | '.' :: r => digits1 r
    | _ => some s
  match afterFrac with
  | none => none
  | some s1 =>
    match s1 with
    | c :: r =>
      if c = 'e' ∨ c = 'E' then
        match r with
        | d :: r1 => if d = '+' ∨ d = '-' then digits1 r1 else digits1 r
        | [] => none
      else some s1
    | [] => some s1

/-- Read a number: an optional minus, `0` or a digit string without leading
zero, an optional fraction, an optional exponent.  Returns the input after
the number. -/
def jsonNumber (s : Str) : Option Str :=
  let s1 := match s with
    | '-' :: r => r
    | _ => s
  match s1 with
  | c :: r =>
    if c = '0' then fracExp r
    else if isDigit c then fracExp (r.dropWhile isDigit)
    else none
  | [] => none

/-- What the reader is in the middle of: a value, the elements of an array
(those before are in `acc`), or the members of an object. -/
inductive Goal
  | value
  | items (acc : List Json)
  | members (acc : List (Str × Json))

/-- The reader, with a bound on the number of nested calls.  For `value` it
reads one value (leading white space allowed); for `items` it reads
`value (, value)* ]`; for `members` it reads `string : value (, string : value)* }`.
It returns what was read and the rest of the input. -/
def parse : Nat → Goal → Str → Option (Json × Str)
  | 0, _, _ => none
  | n + 1, .value, s =>
    match skipWs s with
    | [] => none
    | c :: r =>
      if c = '{' then
        match skipWs r with
        | [] => none
        | d :: r1 => if d = '}' then some (.object [], r1) else parse n (.members []) (d :: r1)
      else if c = '[' then
        match skipWs r with
        | [] => none
        | d :: r1 => if d = ']' then some (.array [], r1) else parse n (.items []) (d :: r1)
      else if c = '"' then
        match jsonString r with
        | some (str, r1) => some (.string str, r1)
        | none => none
      else if "true".toList.isPrefixOf (c :: r) then some (.bool true, r.drop 3)
      else if "false".toList.isPrefixOf (c :: r) then some (.bool false, r.drop 4)
      else if "null".toList.isPrefixOf (c :: r) then some (.null, r.drop 3)
      else
        match jsonNumber (c :: r) with
        | some r1 => some (.number ((c :: r).take ((c :: r).length - r1.length)), r1)
        | none => none
  | n + 1, .items acc, s =>
    match parse n .value s with
    | none => none
    | some (v, r) =>
      match skipWs r with
      | [] => none
      | c :: r1 =>
        if c = ',' then parse n (.items (acc ++ [v])) r1
        else if c = ']' then some (.array (acc ++ [v]), r1)
        else none
  | n + 1, .members acc, s =>
    match skipWs s with
    | [] => none
    | q :: r =>
      if q = '"' then
        match jsonString r with
        | none => none
        | some (k, r1) =>
          match skipWs r1 with
          | [] => none
          | c :: r2 =>
            if c = ':' then
              match parse n .value r2 with
              | none => none
              | some (v, r3) =>
                match skipWs r3 with
                | [] => none
                | d :: r4 =>
                  if d = ',' then parse n (.members (acc ++ [(k, v)])) r4
                  else if d = '}' then some (.object (acc ++ [(k, v)]), r4)
                  else none
            else none
      else none

/-- Decode a whole text: one value, with nothing but white space after it.
Every nested call of the reader follows at least one consumed character or
is the first value of an array, so twice the length bounds the nesting. -/
def decodeJson (s : Str) : Option Json :=
  match parse (2 * s.length + 2) .value s with
  | some (v, r) => if skipWs r = [] then some v else none
  | none => none

/-- The value of member `key` of an object (the last one, if repeated). -/
def member (j : Json) (key : Str) : Option Json :=
  match j with
  | .object ms => (ms.reverse.find? fun m => m.1 = key).map (·.2)
  | _ => none

/-- Decode a result body: a JSON object whose members `id` and `output` are
strings; returns the two strings. -/
def decodeResult (body : Str) : Option (Str × Str) :=
  match decodeJson body with
  | none => none
  | some j =>
    match member j "id".toList, member j "output".toList with
    | some (.string i), some (.string o) => some (i, o)
    | _, _ => none

/-- The body `handleMessge` and `sendOutputToCloud` build for envelope id
`id` when the command's output (after the failure substitution) is `out`. -/
def postedBody (id out : Str) : Str :=
  replaceAll (respJson id (replaceAll (trimSuffix out "\n".toList) '"' "\\\"".toList)) '\n'
    "\\n".toList

/-! ## String lemmas -/

theorem replaceAll_append (s t : Str) (old : Char) (new : Str) :
    replaceAll (s ++ t) old new = replaceAll s old new ++ replaceAll t old new := by
  induction s with
  | nil => rfl
  | cons c cs ih => simp [replaceAll, ih]

theorem replaceAll_of_not_mem (s : Str) (old : Char) (new : Str) (h : old ∉ s) :
    replaceAll s old new = s := by
  induction s with
  | nil => rfl
  | cons c cs ih =>
    simp only [List.mem_cons, not_or] at h
    have hc : ¬ c = old := fun e => h.1 e.symm
    simp [replaceAll, hc, ih h.2]

theorem trimSuffix_append_newline (s : Str) :
    trimSuffix (s ++ ['\n']) ['\n'] = s := by
  have h : List.isSuffixOf ['\n'] (s ++ ['\n']) = true :=
    List.isSuffixOf_iff_suffix.mpr ⟨s, rfl⟩
  simp [trimSuffix, h]

theorem trimSuffix_of_not_mem (s : Str) (h : '\n' ∉ s) :
    trimSuffix s ['\n'] = s := by
  have hs : ¬ List.isSuffixOf ['\n'] s = true := by
    intro hsuf
    obtain ⟨t, ht⟩ := List.isSuffixOf_iff_suffix.mp hsuf
    exact h (by rw [← ht]; simp)
  simp [trimSuffix, hs]

/-! ## Connection logs -/

theorem logAt_last (pre : List (List ConnEv)) (l : List ConnEv) (e : ConnEv) :
    logAt (pre ++ [l]) pre.length e = pre ++ [l ++ [e]] := by
  induction pre with
  | nil => rfl
  | cons p ps ih => simp [logAt, ih]

theorem closeCalls_snoc_closed (l : List ConnEv) :
    closeCalls (l ++ [.closed]) = closeCalls l + 1 := by
  simp [closeCalls]

theorem closeCalls_snoc_read (l : List ConnEv) (ok : Bool) :
    closeCalls (l ++ [.read ok]) = closeCalls l := by
  simp [closeCalls]

theorem closeCalls_snoc_wrote (l : List ConnEv) (f : Frame) (ok : Bool) :
    closeCalls (l ++ [.wrote f ok]) = closeCalls l := by
  simp [closeCalls]

theorem isOpen_eq_false_of_closeCalls (l : List ConnEv) (h : closeCalls l = 1) :
    isOpen l = false := by
  have hpos : 0 < List.count ConnEv.closed l := by
    have : closeCalls l = List.count ConnEv.closed l := rfl
    omega
  have hmem : ConnEv.closed ∈ l := List.count_pos_iff.mp hpos
  simp [isOpen, hmem]

theorem filter_isOpen_of_closed (pre : List (List ConnEv))
    (h : ∀ x ∈ pre, closeCalls x = 1) : pre.filter isOpen = [] := by
  rw [List.filter_eq_nil_iff]
  intro x hx
  simp [isOpen_eq_false_of_closeCalls x (h x hx)]

/-! ## The invariant of the supervisor loop -/

theorem inv_init : Inv init := by
  simp [Inv, init]

theorem inv_step (env : Env) (s : State) (e : Event) (h : Inv s) : Inv (step env s e) := by
  obtain ⟨hc, hs⟩ := h
  unfold step
  by_cases hr : s.returned
  · simp only [hr, if_true]; exact ⟨hc, hs⟩
  simp only [hr, Bool.false_eq_true, if_false]
  cases hsess : s.session with
  | none =>
    rw [hsess] at hs
    simp only at hs
    cases e with
    | signal => simp [Inv, hc, hsess]; exact hs
    | heartbeat code resp =>
      simp only [onHeartbeat]
      by_cases h200 : code = 200
      · have h201 : ¬ code = 201 := by omega
        simp only [h200, startWsClient]
        refine ⟨hc, ?_⟩
        simp only [if_true]
        norm_num
        exact ⟨s.conns, [], rfl, rfl, hs, rfl⟩
      · by_cases h201 : code = 201
        · simp [Inv, h201, hc, hsess]; exact hs
        · simp [Inv, h200, h201, hc, hsess]; exact hs
    | supInterrupt ok =>
      by_cases hi : s.interrupt
      · simp [Inv, hi, onSupInterrupt, hc, hsess, stopWsClient]; exact hs
      · simp [Inv, hi, hc, hsess]; exact hs
    | wsRead r => simp [Inv, hc, hsess]; exact hs
    | wsDone => simp [Inv, hc, hsess]; exact hs
    | wsTick ok => simp [Inv, hc, hsess]; exact hs
    | wsInterrupt ok => simp [Inv, hc, hsess]; exact hs
  | some ss =>
    rw [hsess] at hs
    obtain ⟨pre, l, hconns, hk, hpre, hl⟩ := hs
    cases e with
    | signal =>
      refine ⟨hc, ?_⟩
      simp only [Option.map_some']
      exact ⟨pre, l, hconns, hk, hpre, hl⟩
    | heartbeat code resp => simp only [Inv, hc, hsess]; exact ⟨trivial, pre, l, hconns, hk, hpre, hl⟩
    | supInterrupt ok => simp only [Inv, hc, hsess]; exact ⟨trivial, pre, l, hconns, hk, hpre, hl⟩
    | wsRead r =>
      simp only [wsReader]
      by_cases hrd : ss.reading
      · cases r with
        | none =>
          refine ⟨by simp [hrd, hc], ?_⟩
          simp only [hrd, if_true]
          refine ⟨pre, l ++ [.read false], ?_, hk, hpre, ?_⟩
          · rw [hconns, hk, logAt_last]
          · rw [closeCalls_snoc_read, hl]
        | some m =>
          refine ⟨by simp [hrd, hc], ?_⟩
          simp only [hrd, if_true, hsess]
          refine ⟨pre, l ++ [.read true], ?_, hk, hpre, ?_⟩
          · rw [hconns, hk, logAt_last]
          · rw [closeCalls_snoc_read, hl]
      · simp only [hrd, Bool.false_eq_true, if_false, Inv, hc, hsess]
        exact ⟨trivial, pre, l, hconns, hk, hpre, hl⟩
    | wsDone =>
      by_cases hd : ss.done
      · simp only [hd, if_true, wsRound, wsSelect, Inv, hc]
        exact ⟨trivial, pre, l, hconns, hk, hpre, hl⟩
      · simp only [hd, Bool.false_eq_true, if_false, Inv, hc, hsess]
        exact ⟨trivial, pre, l, hconns, hk, hpre, hl⟩
    | wsTick ok =>
      cases ok with
      | true =>
        simp only [wsRound, wsSelect, Inv, hc, if_true]
        refine ⟨trivial, pre, l ++ [.wrote .keepalive true], ?_, hk, hpre, ?_⟩
        · rw [hconns, hk, logAt_last]
        · rw [closeCalls_snoc_wrote, hl]
      | false =>
        simp only [wsRound, wsSelect, Inv]
        refine ⟨by simp, ?_⟩
        simp only [hconns, hk, logAt_last, Bool.false_eq_true, if_false]
        intro x hx
        rcases List.mem_append.mp hx with hx | hx
        · exact hpre x hx
        · rw [List.mem_singleton.mp hx, closeCalls_snoc_closed, closeCalls_snoc_wrote, hl]
    | wsInterrupt ok =>
      by_cases hi : ss.interrupt
      · simp only [wsRound, wsSelect, hi, if_true, Inv, stopWsClient]
        refine ⟨trivial, ?_⟩
        simp only [hconns, hk, logAt_last]
        intro x hx
        rcases List.mem_append.mp hx with hx | hx
        · exact hpre x hx
        · rw [List.mem_singleton.mp hx, closeCalls_snoc_closed, closeCalls_snoc_wrote, hl]
      · simp only [wsRound, wsSelect, hi, Bool.false_eq_true, if_false, Inv, hc]
        exact ⟨trivial, pre, l, hconns, hk, hpre, hl⟩

theorem inv_run (env : Env) (evs : List Event) (s : State) (h : Inv s) :
    Inv (run env s evs) := by
  induction evs generalizing s with
  | nil => exact h
  | cons e es ih => exact ih (step env s e) (inv_step env s e h)

theorem openConns_le_one_of_inv (s : State) (h : Inv s) : (openConns s).length ≤ 1 := by
  obtain ⟨_, hs⟩ := h
  unfold openConns
  cases hsess : s.session with
  | none =>
    rw [hsess] at hs
    rw [filter_isOpen_of_closed s.conns hs]
    simp
  | some ss =>
    rw [hsess] at hs
    obtain ⟨pre, l, hconns, _, hpre, _⟩ := hs
    rw [hconns, List.filter_append, filter_isOpen_of_closed pre hpre]
    simp only [List.nil_append]
    exact (List.length_filter_le _ _).trans (by simp)

/-! ## Result bodies as JSON texts -/

theorem jsonString_quote (rest : Str) : jsonString ('"' :: rest) = some ([], rest) := by
  rw [jsonString.eq_def]
  simp

theorem jsonString_escape (e x : Char) (rest s r : Str) (he : e ≠ 'u') (hx : unescape e = some x)
    (hs : jsonString rest = some (s, r)) :
    jsonString ('\\' :: e :: rest) = some (x :: s, r) := by
  rw [jsonString.eq_def]
  simp [he, hx, hs]

theorem jsonString_plain (c : Char) (rest s r : Str) (hq : c ≠ '"') (hb : c ≠ '\\')
    (hc : ¬ c.toNat < 0x20) (hs : jsonString rest = some (s, r)) :
    jsonString (c :: rest) = some (c :: s, r) := by
  rw [jsonString.eq_def]
  simp [hq, hb, hc, hs]

theorem jsonString_escaped (s rest : Str)
    (h : ∀ c ∈ s, c ≠ '\\' ∧ (0x20 ≤ c.toNat ∨ c = '\n')) :
    jsonString (replaceAll (replaceAll s '"' ['\\', '"']) '\n' ['\\', 'n'] ++ '"' :: rest) =
      some (s, rest) := by
  induction s with
  | nil => exact jsonString_quote rest
  | cons c cs ih =>
    have hc := h c (List.mem_cons_self c cs)
    have ih1 := ih fun d hd => h d (List.mem_cons_of_mem c hd)
    by_cases hq : c = '"'
    · subst hq
      have hrep : replaceAll (replaceAll ('"' :: cs) '"' ['\\', '"']) '\n' ['\\', 'n'] =
          '\\' :: '"' :: replaceAll (replaceAll cs '"' ['\\', '"']) '\n' ['\\', 'n'] := by
        simp [replaceAll, replaceAll_append]
      rw [hrep]
      exact jsonString_escape '"' '"' _ cs rest (by decide) (by decide) ih1
    · by_cases hn : c = '\n'
      · subst hn
        have hrep : replaceAll (replaceAll ('\n' :: cs) '"' ['\\', '"']) '\n' ['\\', 'n'] =
            '\\' :: 'n' :: replaceAll (replaceAll cs '"' ['\\', '"']) '\n' ['\\', 'n'] := by
          simp [replaceAll, replaceAll_append]
        rw [hrep]
        exact jsonString_escape 'n' '\n' _ cs rest (by decide) (by decide) ih1
      · have hge : ¬ c.toNat < 0x20 := by
          rcases hc.2 with h1 | h1
          · omega
          · exact absurd h1 hn
        have hrep : replaceAll (replaceAll (c :: cs) '"' ['\\', '"']) '\n' ['\\', 'n'] =
            c :: replaceAll (replaceAll cs '"' ['\\', '"']) '\n' ['\\', 'n'] := by
          simp [replaceAll, replaceAll_append, hq, hn]
        rw [hrep]
        exact jsonString_plain c _ cs rest hq hc.1 hge ih1

theorem jsonString_key_id (rest : Str) :
    jsonString ('i' :: 'd' :: '"' :: rest) = some (['i', 'd'], rest) :=
  jsonString_plain 'i' _ _ _ (by decide) (by decide) (by decide)
    (jsonString_plain 'd' _ _ _ (by decide) (by decide) (by decide) (jsonString_quote rest))

theorem jsonString_key_output (rest : Str) :
    jsonString ('o' :: 'u' :: 't' :: 'p' :: 'u' :: 't' :: '"' :: rest) =
      some (['o', 'u', 't', 'p', 'u', 't'], rest) :=
  jsonString_plain 'o' _ _ _ (by decide) (by decide) (by decide)
    (jsonString_plain 'u' _ _ _ (by decide) (by decide) (by decide)
      (jsonString_plain 't' _ _ _ (by decide) (by decide) (by decide)
        (jsonString_plain 'p' _ _ _ (by decide) (by decide) (by decide)
          (jsonString_plain 'u' _ _ _ (by decide) (by decide) (by decide)
            (jsonString_plain 't' _ _ _ (by decide) (by decide) (by decide)
              (jsonString_quote rest))))))

theorem parse_spaced_string (n : Nat) (s str r : Str) (h : jsonString s = some (str, r)) :
    parse (n + 1) .value (' ' :: '"' :: s) = some (.string str, r) := by
  rw [parse.eq_def]
  simp [skipWs, isJsonSpace, List.dropWhile_cons, h]

theorem parse_member (n : Nat) (acc : List (Str × Json)) (key a val rest : Str) (d : Char)
    (hkey : ∀ r, jsonString (key ++ '"' :: r) = some (key, r))
    (hval : jsonString (a ++ '"' :: d :: rest) = some (val, d :: rest))
    (hd : isJsonSpace d = false) :
    parse (n + 2) (.members acc) ('"' :: (key ++ '"' :: ':' :: ' ' :: '"' :: (a ++ '"' :: d :: rest))) =
      if d = ',' then parse (n + 1) (.members (acc ++ [(key, .string val)])) rest
      else if d = '}' then some (.object (acc ++ [(key, .string val)]), rest)
      else none := by
  rw [parse.eq_def]
  simp [skipWs, isJsonSpace, List.dropWhile_cons, hkey, parse_spaced_string n _ _ _ hval]
  simp [isJsonSpace] at hd
  simp [hd]

theorem postedBody_eq (id out : Str) :
    postedBody id out =
      '{' :: '"' :: (['i', 'd'] ++ '"' :: ':' :: ' ' :: '"' ::
        (replaceAll id '\n' ['\\', 'n'] ++ '"' :: ',' :: '"' ::
          (['o', 'u', 't', 'p', 'u', 't'] ++ '"' :: ':' :: ' ' :: '"' ::
            (replaceAll (replaceAll (trimSuffix out ['\n']) '"' ['\\', '"']) '\n' ['\\', 'n'] ++
              '"' :: '}' :: [])))) := by
  simp [postedBody, respJson, replaceAll_append, replaceAll]

theorem parse_result_object (m : Nat) (a b id val : Str)
    (ha : ∀ r, jsonString (a ++ '"' :: r) = some (id, r))
    (hb : ∀ r, jsonString (b ++ '"' :: r) = some (val, r)) :
    parse (m + 5) .value
        ('{' :: '"' :: (['i', 'd'] ++ '"' :: ':' :: ' ' :: '"' ::
          (a ++ '"' :: ',' :: '"' ::
            (['o', 'u', 't', 'p', 'u', 't'] ++ '"' :: ':' :: ' ' :: '"' ::
              (b ++ '"' :: '}' :: []))))) =
      some (.object [(['i', 'd'], .string id), (['o', 'u', 't', 'p', 'u', 't'], .string val)], []) := by
  have h1 := parse_member (m + 2) [] ['i', 'd'] a id
    ('"' :: (['o', 'u', 't', 'p', 'u', 't'] ++ '"' :: ':' :: ' ' :: '"' :: (b ++ '"' :: '}' :: [])))
    ',' jsonString_key_id (ha _) (by decide)
  have h2 := parse_member (m + 1) [(['i', 'd'], Json.string id)] ['o', 'u', 't', 'p', 'u', 't'] b val
    [] '}' jsonString_key_output (hb _) (by decide)
  have hne : ¬ ('}' = ',') := by decide
  rw [if_neg hne, if_pos rfl] at h2
  rw [if_pos rfl] at h1
  have h3 := h1.trans h2
  rw [parse.eq_def]
  simp only [List.cons_append, List.nil_append] at h3
  simp [skipWs, isJsonSpace, List.dropWhile_cons, h3]

/-- The bodies the program builds are JSON texts on plain input: when the id
has no double quote, and neither the id nor the output has a backslash or a
control character other than newline, the posted body decodes to an object
whose `id` is the id and whose `output` is the output without its final
newline. -/
theorem postedBody_decodes (id out : Str)
    (hid : ∀ c ∈ id, c ≠ '"' ∧ c ≠ '\\' ∧ (0x20 ≤ c.toNat ∨ c = '\n'))
    (hout : ∀ c ∈ out, c ≠ '\\' ∧ (0x20 ≤ c.toNat ∨ c = '\n')) :
    decodeResult (postedBody id out) = some (id, trimSuffix out ['\n']) := by
  have htrim : ∀ c ∈ trimSuffix out ['\n'], c ≠ '\\' ∧ (0x20 ≤ c.toNat ∨ c = '\n') := by
    intro c hc
    unfold trimSuffix at hc
    split at hc
    · exact hout c (List.mem_of_mem_take hc)
    · exact hout c hc
  have hidq : '"' ∉ id := fun hm => (hid _ hm).1 rfl
  have ha : ∀ r, jsonString (replaceAll id '\n' ['\\', 'n'] ++ '"' :: r) = some (id, r) := by
    intro r
    have h := jsonString_escaped id r fun c hc => (hid c hc).2
    rwa [replaceAll_of_not_mem id '"' _ hidq] at h
  have hb := fun r => jsonString_escaped (trimSuffix out ['\n']) r htrim
  have hlen : ∃ m, 2 * (postedBody id out).length + 2 = m + 5 :=
    ⟨2 * (postedBody id out).length - 3, by rw [postedBody_eq]; simp; omega⟩
  obtain ⟨m, hm⟩ := hlen
  have hparse := parse_result_object m _ _ id (trimSuffix out ['\n']) ha hb
  rw [← postedBody_eq, ← hm] at hparse
  simp [decodeResult, decodeJson, hparse, skipWs, member]

/-- C7, the code at failing inputs: for the envelope with id `42` whose command
prints a backslash and a double quote, `handleMessge` posts the body
`{"id": "42","output": "\\""}`, which is not a JSON text; and for a command
that prints a double quote and a tab the posted body has a raw tab inside a
string, which is not a JSON text either. -/
theorem quoted_output_body_is_not_json :
    handleMessge backslashQuoteEnv [] =
        [.ran "printf %s '\\\"'".toList,
         .posted
          { url := "https://api.nirops.com/wsapi/command/42/channel/c1".toList
            body := "\x7b\"id\": \"42\",\"output\": \"\\\\\"\"\x7d".toList }] ∧
      (decodeJson "\x7b\"id\": \"42\",\"output\": \"\\\\\"\"\x7d".toList).isSome = false ∧
      handleMessge quoteTabEnv [] =
        [.ran "printf '\"\\t'".toList,
         .posted
          { url := "https://api.nirops.com/wsapi/command/42/channel/c1".toList
            body := "\x7b\"id\": \"42\",\"output\": \"\\\"\t\"\x7d".toList }] ∧
      (decodeJson "\x7b\"id\": \"42\",\"output\": \"\\\"\t\"\x7d".toList).isSome = false := by
  decide

/-! ## After a read error -/

theorem step_wsDone_of_done (env : Env) (s : State) (ss : Session)
    (hr : s.returned = false) (hs : s.session = some ss) (hd : ss.done = true) :
    step env s .wsDone = s := by
  cases s
  simp_all [step, wsRound, wsSelect]

theorem run_replicate_wsDone (env : Env) (s : State) (ss : Session)
    (hr : s.returned = false) (hs : s.session = some ss) (hd : ss.done = true) (n : Nat) :
    run env s (List.replicate n .wsDone) = s := by
  induction n with
  | zero => rfl
  | succ k ih =>
    rw [List.replicate_succ, run, List.foldl_cons, step_wsDone_of_done env s ss hr hs hd]
    exact ih

theorem run_append (env : Env) (s : State) (xs ys : List Event) :
    run env s (xs ++ ys) = run env (run env s xs) ys := by
  simp [run, List.foldl_append]

theorem run_replicate_wsTick (env : Env) (l : List ConnEv) (ss : Session) (hss : ss.conn = 0)
    (m : Nat) :
    run env { init with conns := [l], session := some ss } (List.replicate m (.wsTick true)) =
      { init with
        conns := [l ++ List.replicate m (.wrote .keepalive true)]
        session := some ss } := by
  induction m generalizing l with
  | zero => simp [run]
  | succ k ih =>
    rw [List.replicate_succ, run, List.foldl_cons]
    have hstep : step env { init with conns := [l], session := some ss } (.wsTick true) =
        { init with conns := [l ++ [.wrote .keepalive true]], session := some ss } := by
      simp [step, init, wsRound, wsSelect, logAt, hss]
    rw [hstep]
    have h := ih (l ++ [.wrote .keepalive true])
    rw [run] at h
    rw [h]
    simp [List.replicate_succ]

/-! ## The claims about the session and the supervisor -/

/-- C1: in every state the supervisor loop `startHeartbeat` can reach, at most
one connection is open; and when a heartbeat reply with status 200 dials a new
connection, no `startWsClient` call is running and every connection dialed
before has had `Close` called on it exactly once. -/
theorem at_most_one_open_session (env : Env) (evs : List Event) :
    (openConns (run env init evs)).length ≤ 1 ∧
    ∀ resp : Str,
      (step env (run env init evs) (.heartbeat 200 resp)).conns.length =
          (run env init evs).conns.length + 1 →
        (run env init evs).session = none ∧ ∀ l ∈ (run env init evs).conns, closeCalls l = 1 := by
  have hinv := inv_run env evs init inv_init
  refine ⟨openConns_le_one_of_inv _ hinv, ?_⟩
  intro resp hlen
  generalize run env init evs = s at hinv hlen
  cases hsess : s.session with
  | none =>
    refine ⟨rfl, ?_⟩
    have h2 := hinv.2
    rw [hsess] at h2
    exact h2
  | some ss =>
    exfalso
    by_cases hr : s.returned <;> simp [step, hr, hsess] at hlen

/-- C2: in polling, the reaction of `startHeartbeat` to a heartbeat reply
depends on the status code only.  Status 200 enters `startWsClient` (a new
connection is dialed, a session runs) and dispatches nothing; status 201
passes the reply body to `handleMessge` and opens no session; any other status
changes nothing. -/
theorem heartbeat_reaction_by_status (env : Env) (s : State) (code : Int) (resp : Str)
    (hr : s.returned = false) (hs : s.session = none) :
    (code = 200 →
      (step env s (.heartbeat code resp)).session =
          some { conn := s.conns.length, interrupt := false, reading := true, done := false } ∧
        (step env s (.heartbeat code resp)).conns = s.conns ++ [[]] ∧
        (step env s (.heartbeat code resp)).effects = s.effects) ∧
    (code = 201 →
      (step env s (.heartbeat code resp)).effects = s.effects ++ handleMessge env resp ∧
        (step env s (.heartbeat code resp)).session = none ∧
        (step env s (.heartbeat code resp)).conns = s.conns) ∧
    (code ≠ 200 → code ≠ 201 → step env s (.heartbeat code resp) = s) := by
  refine ⟨?_, ?_, ?_⟩
  · intro h
    subst h
    simp [step, hr, hs, onHeartbeat, startWsClient]
  · intro h
    subst h
    simp [step, hr, hs, onHeartbeat]
  · intro h1 h2
    simp [step, hr, hs, onHeartbeat, h1, h2]

/-- C2 at concrete replies: from the initial state, 200 opens a session, 201
dispatches the body, 204 changes nothing. -/
theorem heartbeat_reaction_by_status_witness :
    (step exampleEnv init (.heartbeat 200 [])).session =
        some { conn := 0, interrupt := false, reading := true, done := false } ∧
      (step exampleEnv init (.heartbeat 201 [])).effects = handleMessge exampleEnv [] ∧
      step exampleEnv init (.heartbeat 204 []) = init :=
  ⟨((heartbeat_reaction_by_status exampleEnv init 200 [] rfl rfl).1 rfl).1,
   ((heartbeat_reaction_by_status exampleEnv init 201 [] rfl rfl).2.1 rfl).1,
   (heartbeat_reaction_by_status exampleEnv init 204 [] rfl rfl).2.2 (by decide) (by decide)⟩

/-- C3, the code at the failing input: a send error and an interrupt each end
the `startWsClient` call with `Close` called once, but after a receive error
the call does not return and `Close` is not called, however often the
`select` then takes the `<-done` case and however many keepalive writes
succeed afterwards. -/
theorem read_error_does_not_end_session (env : Env) (n m : Nat) (ok : Bool) :
    run env init [.heartbeat 200 [], .wsTick false] =
        { init with conns := [[.wrote .keepalive false, .closed]] } ∧
      run env init [.heartbeat 200 [], .signal, .wsInterrupt ok] =
        { init with conns := [[.wrote .close ok, .closed]], interrupt := true } ∧
      (run env init
          ([.heartbeat 200 [], .wsRead none] ++ List.replicate n .wsDone ++
            List.replicate m (.wsTick true))).session =
        some { conn := 0, interrupt := false, reading := false, done := true } ∧
      (run env init
          ([.heartbeat 200 [], .wsRead none] ++ List.replicate n .wsDone ++
            List.replicate m (.wsTick true))).conns.map closeCalls = [0] := by
  have h0 : run env init [.heartbeat 200 [], .wsRead none] =
      { init with
        conns := [[.read false]]
        session := some { conn := 0, interrupt := false, reading := false, done := true } } := by
    simp [run, step, init, onHeartbeat, startWsClient, wsReader, logAt]
  have h1 : run env init
      ([.heartbeat 200 [], .wsRead none] ++ List.replicate n .wsDone ++
        List.replicate m (.wsTick true)) =
      { init with
        conns := [[.read false] ++ List.replicate m (.wrote .keepalive true)]
        session := some { conn := 0, interrupt := false, reading := false, done := true } } := by
    rw [run_append, run_append, h0, run_replicate_wsDone env _ _ rfl rfl rfl n]
    exact run_replicate_wsTick env [.read false]
      { conn := 0, interrupt := false, reading := false, done := true } rfl m
  refine ⟨?_, ?_, ?_, ?_⟩
  · simp [run, step, init, onHeartbeat, startWsClient, wsRound, wsSelect, logAt]
  · simp [run, step, init, onHeartbeat, startWsClient, wsRound, wsSelect, logAt, stopWsClient]
  · rw [h1]
  · rw [h1]
    simp [closeCalls, List.count_replicate]

/-- C4, the code at the failing input: after a receive error has closed
`done`, the loop of `startWsClient` keeps running, and each of the `m` ticks
that follow writes a keepalive to the connection; the session is still open
afterwards. -/
theorem keepalive_written_after_read_error (env : Env) (n m : Nat) :
    run env init
        ([.heartbeat 200 [], .wsRead none] ++ List.replicate n .wsDone ++
          List.replicate m (.wsTick true)) =
      { init with
        conns := [[.read false] ++ List.replicate m (.wrote .keepalive true)]
        session := some { conn := 0, interrupt := false, reading := false, done := true } } := by
  rw [run_append, run_append]
  have h0 : run env init [.heartbeat 200 [], .wsRead none] =
      { init with
        conns := [[.read false]]
        session := some { conn := 0, interrupt := false, reading := false, done := true } } := by
    simp [run, step, init, onHeartbeat, startWsClient, wsReader, logAt]
  rw [h0, run_replicate_wsDone env _ _ rfl rfl rfl n]
  exact run_replicate_wsTick env [.read false]
    { conn := 0, interrupt := false, reading := false, done := true } rfl m

/-- C5: in every state the loop of `startHeartbeat` reaches, `c` is nil; so
when the loop, with no session running, takes its interrupt case,
`stopWsClient(c)` writes nothing to any connection, and the loop returns. -/
theorem interrupt_while_polling_closes_nothing (env : Env) (evs : List Event) (ok : Bool)
    (hr : (run env init evs).returned = false) (hs : (run env init evs).session = none)
    (hi : (run env init evs).interrupt = true) :
    (run env init evs).c = none ∧
      (step env (run env init evs) (.supInterrupt ok)).conns = (run env init evs).conns ∧
      (step env (run env init evs) (.supInterrupt ok)).returned = true := by
  have hinv := inv_run env evs init inv_init
  generalize run env init evs = s at hinv hr hs hi
  have hc := hinv.1
  simp [step, hr, hs, hi, onSupInterrupt, stopWsClient, hc]

/-- C5 on a run with a session in between: a session is opened and ends on a
send error, a signal arrives, and the interrupt case of the loop leaves the
one (closed) connection untouched. -/
theorem interrupt_while_polling_closes_nothing_witness :
    (run exampleEnv init [.heartbeat 200 [], .wsTick false, .signal]).c = none ∧
      (step exampleEnv (run exampleEnv init [.heartbeat 200 [], .wsTick false, .signal])
          (.supInterrupt true)).conns =
        (run exampleEnv init [.heartbeat 200 [], .wsTick false, .signal]).conns ∧
      (step exampleEnv (run exampleEnv init [.heartbeat 200 [], .wsTick false, .signal])
          (.supInterrupt true)).returned = true :=
  interrupt_while_polling_closes_nothing exampleEnv
    [.heartbeat 200 [], .wsTick false, .signal] true (by decide) (by decide) (by decide)

/-! ## The result body -/

theorem not_mem_of_clean (s : Str) (h : ∀ c ∈ s, c ≠ '"' ∧ c ≠ '\\' ∧ c ≠ '\n') :
    '"' ∉ s ∧ '\n' ∉ s :=
  ⟨fun hm => (h _ hm).1 rfl, fun hm => (h _ hm).2.2 rfl⟩

theorem sendOutputToCloud_of_request (env : Env) (id cid postBody url : Str)
    (hreq : env.newRequest (requestUrl env.cloudOutputUrl id cid) = some url) :
    sendOutputToCloud env id cid postBody =
      .posted { url := url, body := replaceAll postBody '\n' "\\n".toList } ::
        (if env.clientDo url (replaceAll postBody '\n' "\\n".toList) = true then []
         else [.fatal]) := by
  simp only [sendOutputToCloud, hreq]
  by_cases h : env.clientDo url (replaceAll postBody '\n' "\\n".toList) = true
  · rw [if_pos h, if_pos h]
  · rw [if_neg h, if_neg h]

theorem handleMessge_of_request (env : Env) (message : Str) (cmd : Command) (url : Str)
    (hdec : env.decode message = some cmd)
    (hreq : env.newRequest (requestUrl env.cloudOutputUrl cmd.Id cmd.ChannelId) = some url) :
    handleMessge env message =
      .ran cmd.Command ::
        .posted
          { url := url
            body := postedBody cmd.Id
              (if (env.exec cmd.Command).err.isSome then badCommand else (env.exec cmd.Command).out) } ::
        (if env.clientDo url
            (postedBody cmd.Id
              (if (env.exec cmd.Command).err.isSome then badCommand
               else (env.exec cmd.Command).out)) = true
         then [] else [.fatal]) := by
  simp only [handleMessge, hdec]
  rw [sendOutputToCloud_of_request env cmd.Id cmd.ChannelId _ url hreq]
  rfl

theorem handleMessge_of_no_request (env : Env) (message : Str) (cmd : Command)
    (hdec : env.decode message = some cmd)
    (hreq : env.newRequest (requestUrl env.cloudOutputUrl cmd.Id cmd.ChannelId) = none) :
    handleMessge env message = [.ran cmd.Command, .fatal] := by
  simp only [handleMessge, hdec, sendOutputToCloud, hreq]

theorem postedBody_clean (id o o' : Str)
    (hid : ∀ c ∈ id, c ≠ '"' ∧ c ≠ '\\' ∧ c ≠ '\n')
    (ho' : ∀ c ∈ o', c ≠ '"' ∧ c ≠ '\\' ∧ c ≠ '\n')
    (ho : o = o' ∨ o = o' ++ ['\n']) :
    postedBody id o =
      "\x7b\"id\": \"".toList ++ id ++ "\",\"output\": \"".toList ++ o' ++ "\"\x7d".toList := by
  obtain ⟨_, hidn⟩ := not_mem_of_clean id hid
  obtain ⟨hoq, hon⟩ := not_mem_of_clean o' ho'
  have htrim : trimSuffix o ['\n'] = o' := by
    rcases ho with h | h
    · rw [h]; exact trimSuffix_of_not_mem o' hon
    · rw [h]; exact trimSuffix_append_newline o'
  have hbody : replaceAll (respJson id o') '\n' "\\n".toList = respJson id o' := by
    apply replaceAll_of_not_mem
    simp [respJson, hidn, hon]
  have hnl : "\n".toList = ['\n'] := rfl
  rw [postedBody, hnl, htrim, replaceAll_of_not_mem o' '"' _ hoq, hbody]
  rfl

theorem postedBody_badCommand (id : Str) :
    postedBody id badCommand =
      "\x7b\"id\": \"".toList ++ replaceAll id '\n' "\\n".toList ++
        "\",\"output\": \"Bad Command\"\x7d".toList := by
  have h1 : trimSuffix badCommand ['\n'] = badCommand := by decide
  have h2 : replaceAll badCommand '"' ['\\', '"'] = badCommand := by decide
  have h3 : replaceAll badCommand '\n' ['\\', 'n'] = badCommand := by decide
  rw [postedBody_eq, h1, h2, h3]
  simp [badCommand]

/-- C6 as amended: for a decoded envelope with id `i` and a successful
execution with output `o`, where `i` and `o` contain no double quote, no
backslash and no newline other than one optional final newline of `o`, and
where `cloudOutputUrl` has no `%` and `http.NewRequest` accepts the URL
`cloudOutputUrl/i/channel/<channel_id>`, `handleMessge` runs the command and
passes one request to `http.DefaultClient.Do`, whose body is exactly the text
`{"id": "i","output": "o'"}` (a space after each colon), `o'` being `o`
without that final newline; the process exits afterwards when the transport
fails. -/
theorem handleMessge_success_body (env : Env) (message : Str) (cmd : Command) (o o' url : Str)
    (hdec : env.decode message = some cmd)
    (hexec : env.exec cmd.Command = { out := o, err := none })
    (hid : ∀ c ∈ cmd.Id, c ≠ '"' ∧ c ≠ '\\' ∧ c ≠ '\n')
    (ho' : ∀ c ∈ o', c ≠ '"' ∧ c ≠ '\\' ∧ c ≠ '\n')
    (ho : o = o' ∨ o = o' ++ ['\n'])
    (_hbase : '%' ∉ env.cloudOutputUrl)
    (hreq : env.newRequest
        (env.cloudOutputUrl ++ "/".toList ++ cmd.Id ++ "/channel/".toList ++ cmd.ChannelId) =
      some url) :
    handleMessge env message =
      .ran cmd.Command ::
        .posted
          { url := url
            body := "\x7b\"id\": \"".toList ++ cmd.Id ++ "\",\"output\": \"".toList ++ o' ++ "\"\x7d".toList } ::
        (if env.clientDo url
            ("\x7b\"id\": \"".toList ++ cmd.Id ++ "\",\"output\": \"".toList ++ o' ++ "\"\x7d".toList) = true
         then [] else [.fatal]) := by
  rw [handleMessge_of_request env message cmd url hdec hreq, hexec]
  simp only [Option.isSome_none, Bool.false_eq_true, if_false]
  rw [postedBody_clean cmd.Id o o' hid ho' ho]

/-- C6 at the envelope `{id: "42", command: "echo hi", channel_id: "c1"}` with
output `hi` and a newline: one request, to
`https://api.nirops.com/wsapi/command/42/channel/c1`, with body
`{"id": "42","output": "hi"}`. -/
theorem handleMessge_success_body_witness :
    handleMessge exampleEnv [] =
      [.ran "echo hi".toList,
       .posted
        { url := "https://api.nirops.com/wsapi/command/42/channel/c1".toList
          body := "\x7b\"id\": \"42\",\"output\": \"hi\"\x7d".toList }] :=
  handleMessge_success_body exampleEnv []
    { Id := "42".toList, Command := "echo hi".toList, ChannelId := "c1".toList }
    "hi\n".toList "hi".toList "https://api.nirops.com/wsapi/command/42/channel/c1".toList
    rfl rfl (by decide) (by decide) (Or.inr rfl) (by decide) (by decide)

/-- C6 as stated fails twice.  For the envelope `{id: "42", command:
"echo hi", channel_id: "c1"}` and output `hi` and a newline, the body posted
is not the text `{"id":"42","output":"hi"}`: the format of the program has a
space after each colon.  And for the id `50%`, which has no double quote,
backslash or newline, nothing is posted: `http.NewRequest` rejects the URL
and the process exits in `log.Fatalf` after the command has run. -/
theorem posted_body_is_not_the_compact_text :
    handleMessge exampleEnv [] ≠
        [.ran "echo hi".toList,
         .posted
          { url := "https://api.nirops.com/wsapi/command/42/channel/c1".toList
            body := "\x7b\"id\":\"42\",\"output\":\"hi\"\x7d".toList }] ∧
      handleMessge percentIdEnv [] = [.ran "echo hi".toList, .fatal] := by
  decide

/-- C8 as amended: for every decoded envelope whose execution fails, whatever
the error text and the captured output, when `cloudOutputUrl` has no `%`,
`http.NewRequest` accepts the URL `cloudOutputUrl/<id>/channel/<channel_id>`
and addresses the request to it as it stands, and the id has no double quote,
backslash or control character, `handleMessge` passes exactly one request to
`http.DefaultClient.Do`, addressed to that URL, whose body is
`{"id": "<id>","output": "Bad Command"}` and decodes to the object with that
`id` and `output` equal to the sentinel `Bad Command`; the process exits
afterwards when the transport fails. -/
theorem handleMessge_failure_sentinel (env : Env) (message : Str) (cmd : Command)
    (captured errText : Str)
    (hdec : env.decode message = some cmd)
    (hexec : env.exec cmd.Command = { out := captured, err := some errText })
    (_hbase : '%' ∉ env.cloudOutputUrl)
    (hreq : env.newRequest
        (env.cloudOutputUrl ++ "/".toList ++ cmd.Id ++ "/channel/".toList ++ cmd.ChannelId) =
      some (env.cloudOutputUrl ++ "/".toList ++ cmd.Id ++ "/channel/".toList ++ cmd.ChannelId))
    (hid : ∀ c ∈ cmd.Id, c ≠ '"' ∧ c ≠ '\\' ∧ 0x20 ≤ c.toNat) :
    handleMessge env message =
        .ran cmd.Command ::
          .posted
            { url := env.cloudOutputUrl ++ "/".toList ++ cmd.Id ++ "/channel/".toList ++ cmd.ChannelId
              body := "\x7b\"id\": \"".toList ++ cmd.Id ++ "\",\"output\": \"Bad Command\"\x7d".toList } ::
          (if env.clientDo
              (env.cloudOutputUrl ++ "/".toList ++ cmd.Id ++ "/channel/".toList ++ cmd.ChannelId)
              ("\x7b\"id\": \"".toList ++ cmd.Id ++ "\",\"output\": \"Bad Command\"\x7d".toList) = true
           then [] else [.fatal]) ∧
      decodeResult ("\x7b\"id\": \"".toList ++ cmd.Id ++ "\",\"output\": \"Bad Command\"\x7d".toList) =
        some (cmd.Id, "Bad Command".toList) := by
  have hnl : '\n' ∉ cmd.Id := by
    intro hm
    have h := (hid _ hm).2.2
    revert h
    decide
  have hbody : postedBody cmd.Id badCommand =
      "\x7b\"id\": \"".toList ++ cmd.Id ++ "\",\"output\": \"Bad Command\"\x7d".toList := by
    rw [postedBody_badCommand, replaceAll_of_not_mem cmd.Id '\n' _ hnl]
  refine ⟨?_, ?_⟩
  · rw [handleMessge_of_request env message cmd _ hdec hreq, hexec]
    simp only [Option.isSome_some, if_true]
    rw [hbody]
  · rw [← hbody, postedBody_decodes cmd.Id badCommand
      (fun c hc => ⟨(hid c hc).1, (hid c hc).2.1, Or.inl (hid c hc).2.2⟩) (by decide)]
    have h1 : trimSuffix badCommand ['\n'] = badCommand := by decide
    rw [h1]
    rfl

/-- C8 at the envelope `{id: "7", command: "false", channel_id: "c1"}`, whose
command fails with error text `exit status 1` after printing `oops`: one
request, to `https://api.nirops.com/wsapi/command/7/channel/c1`, whose body
decodes to `output` equal to `Bad Command`. -/
theorem handleMessge_failure_sentinel_witness :
    handleMessge failEnv [] =
        [.ran "false".toList,
         .posted
          { url := "https://api.nirops.com/wsapi/command/7/channel/c1".toList
            body := "\x7b\"id\": \"7\",\"output\": \"Bad Command\"\x7d".toList }] ∧
      decodeResult "\x7b\"id\": \"7\",\"output\": \"Bad Command\"\x7d".toList =
        some ("7".toList, "Bad Command".toList) :=
  handleMessge_failure_sentinel failEnv []
    { Id := "7".toList, Command := "false".toList, ChannelId := "c1".toList }
    "oops".toList "exit status 1".toList rfl rfl (by decide) (by decide) (by decide)

/-- C8 as stated fails for some envelopes whose command fails.  For the id
`50%` nothing is posted: `http.NewRequest` rejects the URL and the process
exits in `log.Fatalf`.  For the id `a#b` the one request is addressed to
`.../wsapi/command/a`, without the channel.  For the id `a"b` the body of the
one request is `{"id": "a"b","output": "Bad Command"}`, which is not a JSON
text, so the result has no `output` field. -/
theorem failure_result_not_always_posted :
    handleMessge percentIdFailEnv [] = [.ran "false".toList, .fatal] ∧
      handleMessge hashIdFailEnv [] =
        [.ran "false".toList,
         .posted
          { url := "https://api.nirops.com/wsapi/command/a".toList
            body := "\x7b\"id\": \"a#b\",\"output\": \"Bad Command\"\x7d".toList }] ∧
      handleMessge quoteIdFailEnv [] =
        [.ran "false".toList,
         .posted
          { url := "https://api.nirops.com/wsapi/command/a%22b/channel/c1".toList
            body := "\x7b\"id\": \"a\"b\",\"output\": \"Bad Command\"\x7d".toList }] ∧
      (decodeJson "\x7b\"id\": \"a\"b\",\"output\": \"Bad Command\"\x7d".toList).isSome = false := by
  decide

/-! ## The read loop dispatches synchronously -/

theorem delivered_append (a b : List Effect) : delivered (a ++ b) = delivered a + delivered b := by
  induction a with
  | nil => simp [delivered]
  | cons x xs ih =>
    cases x <;> simp [delivered, ih]
    omega

theorem dispatched_append (env : Env) (a b : List Effect) :
    dispatched env (a ++ b) = dispatched env a + dispatched env b := by
  induction a with
  | nil => simp [dispatched]
  | cons x xs ih =>
    cases x with
    | readReturn r =>
      cases r <;> simp [dispatched, ih]
      omega
    | readCall => simp [dispatched, ih]
    | ran c => simp [dispatched, ih]
    | posted p => simp [dispatched, ih]
    | fatal => simp [dispatched, ih]

theorem sendOutputToCloud_shape (env : Env) (id cid postBody : Str) :
    sendOutputToCloud env id cid postBody = [.fatal] ∨
    ∃ p, sendOutputToCloud env id cid postBody = [.posted p] ∨
      sendOutputToCloud env id cid postBody = [.posted p, .fatal] := by
  unfold sendOutputToCloud
  cases hreq : env.newRequest (requestUrl env.cloudOutputUrl id cid) with
  | none => left; rfl
  | some url =>
    right
    by_cases hdo : env.clientDo url (replaceAll postBody '\n' "\\n".toList) = true
    · exact ⟨{ url := url, body := replaceAll postBody '\n' "\\n".toList },
        Or.inl (if_pos hdo)⟩
    · exact ⟨{ url := url, body := replaceAll postBody '\n' "\\n".toList },
        Or.inr (if_neg hdo)⟩

theorem handleMessge_shape (env : Env) (message : Str) :
    (env.decode message = none ∧ handleMessge env message = []) ∨
    ∃ c p, (env.decode message).isSome = true ∧
      (handleMessge env message = [.ran c, .posted p] ∨
        handleMessge env message = [.ran c, .fatal] ∨
        handleMessge env message = [.ran c, .posted p, .fatal]) := by
  unfold handleMessge
  cases h : env.decode message with
  | none => left; simp
  | some cmd =>
    right
    simp only
    generalize respJson cmd.Id _ = b
    rcases sendOutputToCloud_shape env cmd.Id cmd.ChannelId b with hs | ⟨p, hs | hs⟩
    · exact ⟨cmd.Command, ⟨[], []⟩, rfl, Or.inr (Or.inl (by rw [hs]))⟩
    · exact ⟨cmd.Command, p, rfl, Or.inl (by rw [hs])⟩
    · exact ⟨cmd.Command, p, rfl, Or.inr (Or.inr (by rw [hs]))⟩

theorem readLoop_split (env : Env) (script : List (Option Str)) :
    ∀ pre suf, readLoop env script = pre ++ Effect.readCall :: suf →
      delivered pre = dispatched env pre := by
  induction script with
  | nil =>
    intro pre suf h
    cases pre with
    | nil => rfl
    | cons x xs => simp [readLoop] at h
  | cons r rest ih =>
    intro pre suf h
    cases r with
    | none =>
      cases pre with
      | nil => rfl
      | cons x xs =>
        cases xs with
        | nil => simp [readLoop] at h
        | cons y ys => simp [readLoop] at h
    | some m =>
      cases pre with
      | nil => rfl
      | cons x xs =>
        simp only [readLoop, List.cons_append, List.cons.injEq] at h
        obtain ⟨hx, h⟩ := h
        cases xs with
        | nil => simp at h
        | cons y ys =>
          simp only [List.cons_append, List.cons.injEq] at h
          obtain ⟨hy, h⟩ := h
          subst hx hy
          rcases handleMessge_shape env m with ⟨hdec, hH⟩ | ⟨c, p, hdec, hH | hH | hH⟩
          · rw [hH] at h
            simp only [exits, List.contains_nil, Bool.false_eq_true, if_false,
              List.nil_append] at h
            have := ih ys suf h
            simp [delivered, dispatched, hdec, this]
          · rw [hH] at h
            have hex : exits [Effect.ran c, Effect.posted p] = false := by
              simp [exits]
            rw [hex] at h
            simp only [Bool.false_eq_true, if_false] at h
            cases ys with
            | nil => simp at h
            | cons z zs =>
              simp only [List.cons_append, List.cons.injEq] at h
              obtain ⟨hz, h⟩ := h
              cases zs with
              | nil => simp at h
              | cons w ws =>
                simp only [List.cons_append, List.cons.injEq, List.nil_append] at h
                obtain ⟨hw, h⟩ := h
                subst hz hw
                have := ih ws suf h
                simp [delivered, dispatched, hdec, this]
                omega
          · rw [hH] at h
            have hex : exits [Effect.ran c, Effect.fatal] = true := by
              simp [exits]
            rw [hex] at h
            simp only [if_true] at h
            have hmem : Effect.readCall ∈ [Effect.ran c, Effect.fatal] := by
              rw [h]; simp
            simp at hmem
          · rw [hH] at h
            have hex : exits [Effect.ran c, Effect.posted p, Effect.fatal] = true := by
              simp [exits]
            rw [hex] at h
            simp only [if_true] at h
            have hmem : Effect.readCall ∈ [Effect.ran c, Effect.posted p, Effect.fatal] := by
              rw [h]; simp
            simp at hmem

/-- C9 as amended: dispatch from the read loop is a plain call.  Whenever the
loop issues a `ReadMessage` call, every command it has handed to
`handleMessge` before has already been run and its result posted: the number
of results delivered equals the number of commands dispatched. -/
theorem read_loop_dispatch_is_synchronous (env : Env) (script : List (Option Str))
    (pre suf : List Effect) (h : readLoop env script = pre ++ Effect.readCall :: suf) :
    delivered pre = dispatched env pre :=
  readLoop_split env script pre suf h

/-- C9 on a run with two messages: when the third `ReadMessage` call is issued
(after the first eight steps of the trace), both commands have been run and
both results posted. -/
theorem read_loop_dispatch_is_synchronous_witness :
    readLoop exampleEnv [some [], some []] =
        (readLoop exampleEnv [some [], some []]).take 8 ++ [Effect.readCall] ∧
      delivered ((readLoop exampleEnv [some [], some []]).take 8) =
        dispatched exampleEnv ((readLoop exampleEnv [some [], some []]).take 8) ∧
      delivered ((readLoop exampleEnv [some [], some []]).take 8) = 2 :=
  ⟨by decide,
   read_loop_dispatch_is_synchronous exampleEnv [some [], some []]
     ((readLoop exampleEnv [some [], some []]).take 8) [] (by decide),
   by decide⟩

/-- C9 as stated fails: in no run of the read loop is a `ReadMessage` call
issued while a dispatched command's result is still undelivered. -/
theorem no_receive_before_result_delivery :
    ¬ ∃ (env : Env) (script : List (Option Str)) (pre suf : List Effect),
        readLoop env script = pre ++ Effect.readCall :: suf ∧ delivered pre < dispatched env pre := by
  rintro ⟨env, script, pre, suf, h, hlt⟩
  have := readLoop_split env script pre suf h
  omega

/-! ## The credential file -/

theorem split_of_not_mem (s : Str) (sep : Char) (h : sep ∉ s) : split s sep = [s] := by
  induction s with
  | nil => rfl
  | cons c cs ih =>
    simp only [List.mem_cons, not_or] at h
    have hc : ¬ c = sep := fun e => h.1 e.symm
    simp [split, hc, ih h.2]

theorem split_append_sep (a b : Str) (sep : Char) (h : sep ∉ a) :
    split (a ++ sep :: b) sep = a :: split b sep := by
  induction a with
  | nil => simp [split]
  | cons c cs ih =>
    simp only [List.mem_cons, not_or] at h
    have hc : ¬ c = sep := fun e => h.1 e.symm
    simp [split, hc, ih h.2]

theorem dropWhile_isSpace_of_head (s : Str) (h : ∀ c, s.head? = some c → isSpace c = false) :
    s.dropWhile isSpace = s := by
  cases s with
  | nil => rfl
  | cons c cs => simp [List.dropWhile_cons, h c rfl]

theorem trimSpace_padded (t : Str)
    (hhead : ∀ c, t.head? = some c → isSpace c = false)
    (hlast : ∀ c, t.getLast? = some c → isSpace c = false) :
    trimSpace (' ' :: (t ++ ['\n'])) = t := by
  have hsp : isSpace ' ' = true := by decide
  have hnl : isSpace '\n' = true := by decide
  cases t with
  | nil => simp [trimSpace, List.dropWhile_cons, hsp, hnl]
  | cons c cs =>
    have hc : isSpace c = false := hhead c rfl
    have h1 : List.dropWhile isSpace (' ' :: (c :: cs ++ ['\n'])) = c :: cs ++ ['\n'] := by
      simp [List.dropWhile_cons, hsp, hc]
    have h2 : (c :: cs ++ ['\n']).reverse = '\n' :: (c :: cs).reverse := by simp
    have h3 : List.dropWhile isSpace (c :: cs).reverse = (c :: cs).reverse := by
      apply dropWhile_isSpace_of_head
      intro d hd
      rw [List.head?_reverse] at hd
      exact hlast d hd
    rw [trimSpace, h1, h2, List.dropWhile_cons, hnl, if_pos rfl, h3, List.reverse_reverse]

/-- C10 as amended: for every token that contains no colon and neither starts
nor ends with a white-space character, the content `saveTokenToFile` writes
into a new file, parsed by `initToken`, yields exactly that token. -/
theorem credential_file_round_trip (t : Str)
    (hcolon : ':' ∉ t)
    (hhead : ∀ c, t.head? = some c → isSpace c = false)
    (hlast : ∀ c, t.getLast? = some c → isSpace c = false) :
    initToken (some (saveTokenToFile t none)) = .ok t := by
  have hfile : saveTokenToFile t none = "authtoken".toList ++ ':' :: (' ' :: (t ++ ['\n'])) := by
    simp [saveTokenToFile]
  have hkey : ':' ∉ "authtoken".toList := by decide
  have hrest : ':' ∉ ' ' :: (t ++ ['\n']) := by
    simp only [List.mem_cons, List.mem_append, List.mem_singleton, not_or, List.not_mem_nil,
      or_false]
    exact ⟨by decide, hcolon, by decide⟩
  rw [initToken, hfile, split_append_sep _ _ _ hkey, split_of_not_mem _ _ hrest]
  simp only [List.getElem?_cons_succ, List.getElem?_cons_zero]
  rw [trimSpace_padded t hhead hlast]

/-- C10 at the token `s3cr3t-Token_01`. -/
theorem credential_file_round_trip_witness :
    initToken (some (saveTokenToFile "s3cr3t-Token_01".toList none)) = .ok "s3cr3t-Token_01".toList :=
  credential_file_round_trip "s3cr3t-Token_01".toList (by decide) (by decide) (by decide)

/-- C10 as stated fails: the token `a:b` is read back as `a` (the split on the
colon cuts it), and the token `x` followed by a space is read back as `x`
(the trailing space is trimmed). -/
theorem credential_file_round_trip_fails :
    initToken (some (saveTokenToFile "a:b".toList none)) = .ok "a".toList ∧
      initToken (some (saveTokenToFile "a:b".toList none)) ≠ .ok "a:b".toList ∧
      initToken (some (saveTokenToFile "x ".toList none)) = .ok "x".toList ∧
      initToken (some (saveTokenToFile "x ".toList none)) ≠ .ok "x ".toList := by
  decide

end Nirops
